import Mathlib

/-!
Shallow embedding of `src/ML/components/data_processing.py`
(class `DataProcessing` of the predictive-maintenance pipeline).

A pandas `DataFrame` is modelled column-wise: a `Dataset` is an association
list from column names to columns, a column being the list of its cell
values in row order.  Numeric cells are rationals (the float arithmetic the
claims mention is exact affine arithmetic on the values involved), string
cells are Lean strings.  Fallible pandas/sklearn operations (KeyError on a
missing column, sklearn `ValueError` on an unknown category, imblearn's
check for a degenerate label) are modelled with `Except Err`, using the
error taxonomy of the design document.
-/

/-- A cell of the data frame: a string or a numeric value. -/
inductive Cell where
  | str (s : String)
  | num (q : ℚ)
deriving DecidableEq, Repr

/-- A data frame: named columns in order; each column lists its cells in row order. -/
abbrev Dataset := List (String × List Cell)

/-- Error taxonomy of the design document (section 7). -/
inductive Err where
  | dataLoadError
  | schemaError
  | encodingError
  | scalingError
  | balancingError
  | persistError
deriving DecidableEq, Repr

/-- `df[name]`: the column of that name (first one, as pandas lookup), if present. -/
def getCol : Dataset → String → Option (List Cell)
  | [], _ => none
  | p :: t, name => if p.1 = name then some p.2 else getCol t name

/-- Whether a column of that name exists. -/
def hasCol (df : Dataset) (name : String) : Bool :=
  (getCol df name).isSome

/-- `df[name] = v`: replace the column if present, else append it at the end
(pandas column assignment). -/
def setCol (df : Dataset) (name : String) (v : List Cell) : Dataset :=
  if hasCol df name then df.map (fun p => if p.1 = name then (name, v) else p)
  else df ++ [(name, v)]

/-- `df.rename(columns={o: n})`: renames when the column exists, silently a
no-op otherwise (pandas default `errors='ignore'`). -/
def renameCol (df : Dataset) (o n : String) : Dataset :=
  df.map (fun p => if p.1 = o then (n, p.2) else p)

/-- `df.drop(names, axis=1)`: errors when any listed column is missing
(pandas default `errors='raise'`), else removes the columns. -/
def dropCols (df : Dataset) (names : List String) : Except Err Dataset :=
  if names.all (fun n => hasCol df n) then
    .ok (df.filter (fun p => !(names.contains p.1)))
  else .error .schemaError

/-- Every column of `df` has exactly `n` rows. -/
def hasRowCount (df : Dataset) (n : ℕ) : Prop :=
  ∀ p ∈ df, (p.2 : List Cell).length = n

instance (df : Dataset) (n : ℕ) : Decidable (hasRowCount df n) := by
  unfold hasRowCount; infer_instance

/-- The cell at row `i` of column `name`, if both exist. -/
def cellAt (df : Dataset) (name : String) (i : ℕ) : Option Cell :=
  (getCol df name).bind (fun l => l.get? i)

/-- `DataProcessing.rename_and_drop_columns`: rename `Target` to
`Machine failure`, then drop the identifier columns `UDI` and `Product ID`. -/
def rename_and_drop_columns (df : Dataset) : Except Err Dataset :=
  dropCols (renameCol df "Target" "Machine failure") ["UDI", "Product ID"]

/-- Map a partial cell decoder over a column, failing when any cell fails. -/
def mapOpt (f : Cell → Option α) : List Cell → Option (List α)
  | [] => some []
  | c :: l =>
    match f c, mapOpt f l with
    | some b, some bs => some (b :: bs)
    | _, _ => none

/-- Read a cell as a number. -/
def cellNum : Cell → Option ℚ
  | .num q => some q
  | _ => none

/-- Read a cell as a string. -/
def cellStr : Cell → Option String
  | .str s => some s
  | _ => none

/-- A whole column as numbers (fails on a non-numeric cell). -/
def asNums (l : List Cell) : Option (List ℚ) := mapOpt cellNum l

/-- A whole column as strings (fails on a non-string cell). -/
def asStrs (l : List Cell) : Option (List String) := mapOpt cellStr l

/-- `DataProcessing.convert_temperature`: derive the two Celsius columns as
`kelvin - 273.15`, then drop the Kelvin originals. -/
def convert_temperature (df : Dataset) : Except Err Dataset :=
  match getCol df "Air temperature [K]" with
  | none => .error .schemaError
  | some ak =>
    match asNums ak with
    | none => .error .schemaError
    | some aks =>
      match getCol df "Process temperature [K]" with
      | none => .error .schemaError
      | some pk =>
        match asNums pk with
        | none => .error .schemaError
        | some pks =>
          let df1 := setCol df "Air temperature [c]"
            ((aks.map (fun x => x - 273.15)).map Cell.num)
          let df2 := setCol df1 "Process temperature [c]"
            ((pks.map (fun x => x - 273.15)).map Cell.num)
          dropCols df2 ["Air temperature [K]", "Process temperature [K]"]

/-- `OrdinalEncoder(categories=[['L', 'M', 'H']])` on one cell: the fixed
closed rank order; any other value is unknown (sklearn raises). -/
def ordCode : Cell → Option ℚ
  | .str "L" => some 0
  | .str "M" => some 1
  | .str "H" => some 2
  | _ => none

/-- Lexicographic order on character lists by codepoint, the order
`np.unique` sorts strings with (and Lean's own string order). -/
def charsLt : List Char → List Char → Bool
  | [], [] => false
  | [], _ :: _ => true
  | _ :: _, [] => false
  | a :: as, b :: bs =>
    if a.toNat < b.toNat then true
    else if b.toNat < a.toNat then false
    else charsLt as bs

/-- Lexicographic order on strings by codepoint. -/
def strLt (a b : String) : Bool := charsLt a.data b.data

/-- `LabelEncoder` code of a string: its rank among the distinct values in
sorted order (`np.unique` sorts), i.e. the number of distinct values
strictly below it. -/
def labelCode (l : List String) (s : String) : ℕ :=
  ((l.dedup).filter (fun t => strLt t s)).length

/-- `DataProcessing.encode_features`: ordinal-encode `Type` in place with the
fixed categories `L < M < H`, then label-encode `Failure Type` into the new
column `type_of_failure`. -/
def encode_features (df : Dataset) : Except Err Dataset :=
  match getCol df "Type" with
  | none => .error .schemaError
  | some tcol =>
    match mapOpt ordCode tcol with
    | none => .error .encodingError
    | some tcodes =>
      let df1 := setCol df "Type" (tcodes.map Cell.num)
      match getCol df1 "Failure Type" with
      | none => .error .schemaError
      | some fcol =>
        match asStrs fcol with
        | none => .error .encodingError
        | some fstrs =>
          .ok (setCol df1 "type_of_failure"
            (fstrs.map (fun s => Cell.num (labelCode fstrs s))))

/-- Modelled from the spec: the alternative label-encoding the design
document describes for `Failure Type` — each distinct string is coded in the
order of its first appearance in row order (the source instead uses
`LabelEncoder`, acting through `labelCode`).  Used to compare the two. -/
def firstSeenList (l : List String) : List String :=
  l.foldl (fun acc s => if s ∈ acc then acc else acc ++ [s]) []

/-- Modelled from the spec: the first-appearance code of a string. -/
def firstSeenCode (l : List String) (s : String) : ℕ :=
  (firstSeenList l).indexOf s

/-- The five continuous columns min-max scaled by `scale_features`. -/
def colsToScale : List String :=
  ["Rotational speed [rpm]", "Torque [Nm]", "Tool wear [min]",
   "Air temperature [c]", "Process temperature [c]"]

/-- Minimum of a column of numbers (arbitrary on the empty column). -/
def listMin : List ℚ → ℚ
  | [] => 0
  | x :: xs => xs.foldl min x

/-- Maximum of a column of numbers (arbitrary on the empty column). -/
def listMax : List ℚ → ℚ
  | [] => 0
  | x :: xs => xs.foldl max x

/-- `MinMaxScaler` on one column: `(x - min) / (max - min)`, the zero range
being replaced by `1` (sklearn's `_handle_zeros_in_scale`), so a constant
column maps to all zeros. -/
def minmaxScale (xs : List ℚ) : List ℚ :=
  let m := listMin xs
  let M := listMax xs
  let s := if M - m = 0 then 1 else M - m
  xs.map (fun x => (x - m) / s)

/-- One column's fit-and-apply step of `scale_features` (missing or
non-numeric column: sklearn fails). -/
def scaleStep (df : Dataset) (name : String) : Except Err Dataset :=
  match getCol df name with
  | none => .error .scalingError
  | some col =>
    match asNums col with
    | none => .error .scalingError
    | some xs => .ok (setCol df name ((minmaxScale xs).map Cell.num))

/-- `DataProcessing.scale_features`: min-max scale the five listed columns
(each fit independently on the full current dataset). -/
def scale_features (df : Dataset) : Except Err Dataset :=
  colsToScale.foldlM scaleStep df

/-- The row indices holding class `c` of the label column `y`. -/
def classIndices (y : List Cell) (c : Cell) : List ℕ :=
  (List.range y.length).filter (fun i => y.get? i = some c)

/-- The largest per-class row count of the label column. -/
def maxClassCount (y : List Cell) : ℕ :=
  ((y.dedup).map (fun c => y.count c)).foldr max 0

/-- Draw `m` samples with replacement from the candidate index list, the
pseudo-random source `rng` consumed from offset `off`. -/
def sampleFrom (rng : ℕ → ℕ) (off : ℕ) (cands : List ℕ) (m : ℕ) : List ℕ :=
  (List.range m).map (fun j => cands.getD (rng (off + j) % cands.length) 0)

/-- For each class (in the given order) draw enough extra row indices to
bring its count up to `mx`. -/
def extrasAux (rng : ℕ → ℕ) (y : List Cell) (mx : ℕ) : List Cell → ℕ → List ℕ
  | [], _ => []
  | c :: cs, off =>
    sampleFrom rng off (classIndices y c) (mx - y.count c) ++
      extrasAux rng y mx cs (off + (mx - y.count c))

/-- All extra row indices drawn by the oversampler. -/
def allExtras (rng : ℕ → ℕ) (y : List Cell) : List ℕ :=
  extrasAux rng y (maxClassCount y) y.dedup 0

/-- Append to a column the values it holds at the extra row indices (the
duplicated rows of the oversampler). -/
def extendCol (extras : List ℕ) (l : List Cell) : List Cell :=
  l ++ extras.map (fun i => l.getD i (Cell.num 0))

/-- `DataProcessing.oversample_data`: split off the label `type_of_failure`,
run `RandomOverSampler(sampling_strategy='auto')` — every non-majority class
is topped up to the majority count by duplicating randomly chosen rows of
its own class — and concatenate the resampled features and label back
together (the label column ends up last).  `rng` stands for the sampler's
pseudo-random source, which the code does not seed. -/
def oversample_data (rng : ℕ → ℕ) (df : Dataset) : Except Err Dataset :=
  match getCol df "type_of_failure" with
  | none => .error .schemaError
  | some y =>
    if (y.dedup).length < 2 then .error .balancingError
    else
      .ok ((df.filter (fun p => !(p.1 = "type_of_failure"))).map
              (fun p => (p.1, extendCol (allExtras rng y) p.2))
            ++ [("type_of_failure", extendCol (allExtras rng y) y)])

/-- `ceil(0.2 * n)`, sklearn's test-set size for `test_size=0.2`. -/
def nTestOf (n : ℕ) : ℕ := (n + 4) / 5

/-- Take the rows of a column at the given indices, in order. -/
def applyIdx (idxs : List ℕ) (col : List Cell) : List Cell :=
  idxs.map (fun i => col.getD i (Cell.num 0))

/-- `DataProcessing.train_test_split`: `X` is the frame without
`type_of_failure`, `y` that column; shuffle the row indices with the
permutation `rs n` that `random_state=42` determines for `n` rows, the test
part being the first `ceil(0.2 * n)` shuffled indices and the train part the
rest.  Returns `((X_train, X_test), (y_train, y_test))`; persisting them to
CSV is outside the model. -/
def train_test_split (rs : ℕ → List ℕ) (df : Dataset) :
    Except Err ((Dataset × Dataset) × (List Cell × List Cell)) :=
  match getCol df "type_of_failure" with
  | none => .error .schemaError
  | some y =>
    let X : Dataset := df.filter (fun p => !(p.1 = "type_of_failure"))
    let n := y.length
    let perm := rs n
    let testIdx := perm.take (nTestOf n)
    let trainIdx := perm.drop (nTestOf n)
    .ok ((X.map (fun p => (p.1, applyIdx trainIdx p.2)),
          X.map (fun p => (p.1, applyIdx testIdx p.2))),
         (applyIdx trainIdx y, applyIdx testIdx y))

instance {ε α : Type} [DecidableEq ε] [DecidableEq α] : DecidableEq (Except ε α) :=
  fun a b =>
    match a, b with
    | .ok x, .ok y =>
      if h : x = y then isTrue (congrArg Except.ok h)
      else isFalse (fun he => h (Except.ok.inj he))
    | .ok _, .error _ => isFalse (fun he => Except.noConfusion he)
    | .error _, .ok _ => isFalse (fun he => Except.noConfusion he)
    | .error e, .error f =>
      if h : e = f then isTrue (congrArg Except.error h)
      else isFalse (fun he => h (Except.error.inj he))

instance : DecidableEq ((Dataset × Dataset) × (List Cell × List Cell)) :=
  instDecidableEqProd

/-! ### Lookup / update lemmas for the column model -/

theorem getCol_eq_none_of_hasCol_false {df : Dataset} {name : String}
    (h : hasCol df name = false) : getCol df name = none := by
  unfold hasCol at h
  exact Option.not_isSome_iff_eq_none.mp (by simp [h])

theorem hasCol_true_of_getCol {df : Dataset} {name : String} {v : List Cell}
    (h : getCol df name = some v) : hasCol df name = true := by
  simp [hasCol, h]

theorem getCol_append (l₁ l₂ : Dataset) (name : String) :
    getCol (l₁ ++ l₂) name =
      match getCol l₁ name with
      | some v => some v
      | none => getCol l₂ name := by
  induction l₁ with
  | nil => simp [getCol]
  | cons p t ih =>
    by_cases hp : p.1 = name
    · simp [getCol, hp]
    · simp [getCol, hp, ih]

theorem getCol_mapReplace_self {df : Dataset} {name : String} (v : List Cell)
    (h : hasCol df name = true) :
    getCol (df.map (fun p => if p.1 = name then (name, v) else p)) name = some v := by
  induction df with
  | nil => simp [getCol, hasCol] at h
  | cons p t ih =>
    by_cases hp : p.1 = name
    · simp [getCol, hp]
    · have ht : hasCol t name = true := by
        simpa [hasCol, getCol, hp] using h
      simpa [getCol, hp] using ih ht

theorem getCol_setCol_self (df : Dataset) (name : String) (v : List Cell) :
    getCol (setCol df name v) name = some v := by
  unfold setCol
  by_cases h : hasCol df name
  · rw [if_pos h]
    exact getCol_mapReplace_self v h
  · rw [if_neg h]
    rw [getCol_append]
    rw [getCol_eq_none_of_hasCol_false (by simpa using h)]
    simp [getCol]

theorem getCol_mapReplace_other (df : Dataset) {name u : String} (v : List Cell)
    (h : name ≠ u) :
    getCol (df.map (fun p => if p.1 = u then (u, v) else p)) name = getCol df name := by
  induction df with
  | nil => rfl
  | cons p t ih =>
    by_cases hp : p.1 = u
    · have hpn : ¬ p.1 = name := fun he => h ((he ▸ hp : name = u))
      simp [getCol, hp, hpn, Ne.symm h, ih]
    · by_cases hpn : p.1 = name
      · simp [getCol, hp, hpn, h]
      · simp [getCol, hp, hpn, ih]

theorem getCol_setCol_other (df : Dataset) {name u : String} (v : List Cell)
    (h : name ≠ u) : getCol (setCol df u v) name = getCol df name := by
  unfold setCol
  by_cases hc : hasCol df u
  · rw [if_pos hc]
    exact getCol_mapReplace_other df v h
  · rw [if_neg hc]
    rw [getCol_append]
    cases hg : getCol df name with
    | some v' => simp
    | none => simp [getCol, Ne.symm h]

theorem getCol_renameCol_other (df : Dataset) {u o n : String}
    (ho : u ≠ o) (hn : u ≠ n) :
    getCol (renameCol df o n) u = getCol df u := by
  induction df with
  | nil => rfl
  | cons p t ih =>
    simp only [renameCol] at ih ⊢
    by_cases hp : p.1 = o
    · have hpu : ¬ p.1 = u := fun he => ho (he ▸ hp)
      simp [getCol, hp, hpu, Ne.symm hn, Ne.symm ho, ih]
    · by_cases hpu : p.1 = u
      · simp [getCol, hp, hpu, ho, ih]
      · simp [getCol, hp, hpu, ih]

theorem getCol_filterNames_notMem (df : Dataset) {name : String} {names : List String}
    (h : name ∉ names) :
    getCol (df.filter (fun p => !(names.contains p.1))) name = getCol df name := by
  induction df with
  | nil => rfl
  | cons p t ih =>
    simp only [List.contains, List.elem_eq_mem] at ih ⊢
    by_cases hpu : p.1 = name
    · simp [getCol, List.filter_cons, hpu, h, ih]
    · by_cases hk : p.1 ∈ names
      · simp [getCol, List.filter_cons, hk, hpu, ih]
      · simp [getCol, List.filter_cons, hk, hpu, ih]

theorem getCol_filterNames_mem (df : Dataset) {name : String} {names : List String}
    (h : name ∈ names) :
    getCol (df.filter (fun p => !(names.contains p.1))) name = none := by
  induction df with
  | nil => rfl
  | cons p t ih =>
    simp only [List.contains, List.elem_eq_mem] at ih ⊢
    by_cases hk : p.1 ∈ names
    · simp [List.filter_cons, hk, ih]
    · have hpu : ¬ p.1 = name := fun he => hk (he ▸ h)
      simp [getCol, List.filter_cons, hk, hpu, ih]

theorem dropCols_ok {df out : Dataset} {names : List String}
    (h : dropCols df names = .ok out) :
    out = df.filter (fun p => !(names.contains p.1)) := by
  unfold dropCols at h
  by_cases hc : names.all (fun n => hasCol df n)
  · rw [if_pos hc] at h
    exact (Except.ok.inj h).symm
  · rw [if_neg hc] at h
    exact Except.noConfusion h

theorem dropCols_error_of_missing {df : Dataset} {names : List String} {n : String}
    (hn : n ∈ names) (h : hasCol df n = false) :
    dropCols df names = .error .schemaError := by
  unfold dropCols
  rw [if_neg]
  intro hall
  rw [List.all_eq_true] at hall
  exact absurd (hall n hn) (by simp [h])

/-! ### Row-count preservation -/

theorem hasRowCount_setCol {df : Dataset} {n : ℕ} {name : String} {v : List Cell}
    (hdf : hasRowCount df n) (hv : v.length = n) :
    hasRowCount (setCol df name v) n := by
  unfold setCol
  by_cases hc : hasCol df name
  · rw [if_pos hc]
    intro p hp
    rcases List.mem_map.mp hp with ⟨q, hq, hqe⟩
    by_cases hqn : q.1 = name
    · simp only [hqn, if_true] at hqe
      rw [← hqe]
      exact hv
    · simp only [hqn, if_false] at hqe
      rw [← hqe]
      exact hdf q hq
  · rw [if_neg hc]
    intro p hp
    rcases List.mem_append.mp hp with hp | hp
    · exact hdf p hp
    · rcases List.mem_singleton.mp hp with rfl
      exact hv

theorem hasRowCount_renameCol {df : Dataset} {n : ℕ} {o nn : String}
    (hdf : hasRowCount df n) : hasRowCount (renameCol df o nn) n := by
  intro p hp
  rcases List.mem_map.mp hp with ⟨q, hq, hqe⟩
  by_cases hqn : q.1 = o
  · simp only [renameCol, hqn, if_true] at hqe
    rw [← hqe]
    exact hdf q hq
  · simp only [renameCol, hqn, if_false] at hqe
    rw [← hqe]
    exact hdf q hq

theorem hasRowCount_filter {df : Dataset} {n : ℕ} {q : String × List Cell → Bool}
    (hdf : hasRowCount df n) : hasRowCount (df.filter q) n :=
  fun p hp => hdf p (List.mem_of_mem_filter hp)

theorem mapOpt_length {α : Type} {f : Cell → Option α} :
    ∀ {l : List Cell} {bs : List α}, mapOpt f l = some bs → bs.length = l.length := by
  intro l
  induction l with
  | nil =>
    intro bs h
    simp only [mapOpt] at h
    rw [← Option.some.inj h]
    rfl
  | cons c t ih =>
    intro bs h
    simp only [mapOpt] at h
    cases hf : f c with
    | none => rw [hf] at h; exact Option.noConfusion h
    | some b =>
      rw [hf] at h
      cases hm : mapOpt f t with
      | none => rw [hm] at h; exact Option.noConfusion h
      | some bs' =>
        rw [hm] at h
        rw [← Option.some.inj h]
        simp [ih hm]

/-! ### Stage theorems -/

theorem hasCol_setCol_other (df : Dataset) {name u : String} (v : List Cell)
    (h : name ≠ u) : hasCol (setCol df u v) name = hasCol df name := by
  unfold hasCol
  rw [getCol_setCol_other df v h]

/-- Claim C5: `convert_temperature` computes each Celsius value as the
corresponding Kelvin value minus `273.15` and removes the Kelvin columns,
and adding `273.15` back to every produced Celsius value reproduces the
original Kelvin column exactly. -/
theorem convert_temperature_round_trip
    (df out : Dataset) (ak pk : List Cell) (aks pks : List ℚ)
    (hak : getCol df "Air temperature [K]" = some ak)
    (haks : asNums ak = some aks)
    (hpk : getCol df "Process temperature [K]" = some pk)
    (hpks : asNums pk = some pks)
    (hok : convert_temperature df = .ok out) :
    getCol out "Air temperature [c]"
        = some ((aks.map (fun x => x - 273.15)).map Cell.num)
      ∧ getCol out "Process temperature [c]"
        = some ((pks.map (fun x => x - 273.15)).map Cell.num)
      ∧ getCol out "Air temperature [K]" = none
      ∧ getCol out "Process temperature [K]" = none
      ∧ (aks.map (fun x => x - 273.15)).map (fun c => c + 273.15) = aks
      ∧ (pks.map (fun x => x - 273.15)).map (fun c => c + 273.15) = pks := by
  unfold convert_temperature at hok
  simp only [hak, haks, hpk, hpks] at hok
  set A := (aks.map (fun x => x - 273.15)).map Cell.num with hA
  set P := (pks.map (fun x => x - 273.15)).map Cell.num with hP
  set df1 := setCol df "Air temperature [c]" A with hdf1
  set df2 := setCol df1 "Process temperature [c]" P with hdf2
  have hout : out = df2.filter
      (fun p => !((["Air temperature [K]", "Process temperature [K]"] : List String).contains p.1)) :=
    dropCols_ok hok
  refine ⟨?_, ?_, ?_, ?_, ?_, ?_⟩
  · rw [hout, getCol_filterNames_notMem _ (by decide), hdf2,
      getCol_setCol_other _ _ (by decide), hdf1, getCol_setCol_self]
  · rw [hout, getCol_filterNames_notMem _ (by decide), hdf2, getCol_setCol_self]
  · rw [hout, getCol_filterNames_mem _ (by decide)]
  · rw [hout, getCol_filterNames_mem _ (by decide)]
  · rw [List.map_map]
    have hcomp : ((fun c => c + 273.15) ∘ fun x => x - 273.15) = fun x : ℚ => x := by
      funext x
      simp
    rw [hcomp]
    exact List.map_id_fun.{0} ▸ List.map_id aks
  · rw [List.map_map]
    have hcomp : ((fun c => c + 273.15) ∘ fun x => x - 273.15) = fun x : ℚ => x := by
      funext x
      simp
    rw [hcomp]
    exact List.map_id_fun.{0} ▸ List.map_id pks

/-- Witness for claim C5 at a one-row dataset with Kelvin values 300 and 310. -/
theorem convert_temperature_round_trip_witness :
    getCol [("Air temperature [c]", [Cell.num (537/20 : ℚ)]),
            ("Process temperature [c]", [Cell.num (737/20 : ℚ)])]
        "Air temperature [c]"
        = some (([(300 : ℚ)].map (fun x => x - 273.15)).map Cell.num)
      ∧ getCol [("Air temperature [c]", [Cell.num (537/20 : ℚ)]),
            ("Process temperature [c]", [Cell.num (737/20 : ℚ)])]
        "Process temperature [c]"
        = some (([(310 : ℚ)].map (fun x => x - 273.15)).map Cell.num)
      ∧ getCol [("Air temperature [c]", [Cell.num (537/20 : ℚ)]),
            ("Process temperature [c]", [Cell.num (737/20 : ℚ)])]
        "Air temperature [K]" = none
      ∧ getCol [("Air temperature [c]", [Cell.num (537/20 : ℚ)]),
            ("Process temperature [c]", [Cell.num (737/20 : ℚ)])]
        "Process temperature [K]" = none
      ∧ ([(300 : ℚ)].map (fun x => x - 273.15)).map (fun c => c + 273.15) = [(300 : ℚ)]
      ∧ ([(310 : ℚ)].map (fun x => x - 273.15)).map (fun c => c + 273.15) = [(310 : ℚ)] :=
  convert_temperature_round_trip
    [("Air temperature [K]", [Cell.num 300]), ("Process temperature [K]", [Cell.num 310])]
    [("Air temperature [c]", [Cell.num (537/20 : ℚ)]),
     ("Process temperature [c]", [Cell.num (737/20 : ℚ)])]
    [Cell.num 300] [Cell.num 310] [(300 : ℚ)] [(310 : ℚ)]
    rfl rfl rfl rfl
    (by simp +decide [convert_temperature, asNums, mapOpt, cellNum, setCol, hasCol, getCol, dropCols]
        norm_num)

theorem hasCol_renameCol_other (df : Dataset) {u o n : String}
    (ho : u ≠ o) (hn : u ≠ n) : hasCol (renameCol df o n) u = hasCol df u := by
  unfold hasCol
  rw [getCol_renameCol_other df ho hn]

/-- Claim C7 counterexample: on a dataset that has both identifier columns
but no `Target` column, `rename_and_drop_columns` succeeds — the missing raw
target column is silently ignored by the rename, refuting that the stage
fails with `SchemaError` whenever the raw target column is absent. -/
theorem rename_and_drop_columns_no_target_succeeds :
    rename_and_drop_columns [("UDI", []), ("Product ID", []), ("Machine age", [])]
      = .ok [("Machine age", [])] := by
  decide

/-- Claim C7 (amended): a second run of `rename_and_drop_columns` on its own
output fails with `SchemaError` (the identifier columns are gone), and in
general the stage fails with `SchemaError` whenever either identifier column
(`UDI` or `Product ID`) is absent; a missing `Target` column alone does not
make it fail, the rename being silently skipped. -/
theorem rename_and_drop_columns_second_run_fails (df out : Dataset)
    (hok : rename_and_drop_columns df = .ok out) :
    rename_and_drop_columns out = .error .schemaError
      ∧ ∀ df' : Dataset, (hasCol df' "UDI" = false ∨ hasCol df' "Product ID" = false) →
          rename_and_drop_columns df' = .error .schemaError := by
  have hgen : ∀ df' : Dataset,
      (hasCol df' "UDI" = false ∨ hasCol df' "Product ID" = false) →
      rename_and_drop_columns df' = .error .schemaError := by
    intro df' hmiss
    unfold rename_and_drop_columns
    rcases hmiss with hmiss | hmiss
    · exact dropCols_error_of_missing (by decide)
        ((hasCol_renameCol_other df' (by decide) (by decide)).trans hmiss)
    · exact dropCols_error_of_missing (by decide)
        ((hasCol_renameCol_other df' (by decide) (by decide)).trans hmiss)
  refine ⟨?_, hgen⟩
  have hout := dropCols_ok hok
  refine hgen out (Or.inl ?_)
  unfold hasCol
  rw [hout, getCol_filterNames_mem _ (by decide)]
  rfl

/-- Witness for claim C7 at a three-column raw dataset. -/
theorem rename_and_drop_columns_second_run_fails_witness :
    rename_and_drop_columns [("Machine failure", [])] = .error .schemaError
      ∧ ∀ df' : Dataset, (hasCol df' "UDI" = false ∨ hasCol df' "Product ID" = false) →
          rename_and_drop_columns df' = .error .schemaError :=
  rename_and_drop_columns_second_run_fails
    [("UDI", []), ("Product ID", []), ("Target", [])]
    [("Machine failure", [])]
    (by decide)

/-! ### mapOpt lemmas -/

theorem mapOpt_get? {α : Type} {f : Cell → Option α} :
    ∀ {l : List Cell} {bs : List α}, mapOpt f l = some bs →
      ∀ i c, l.get? i = some c → ∃ b, f c = some b ∧ bs.get? i = some b := by
  intro l
  induction l with
  | nil =>
    intro bs h i c hc
    simp at hc
  | cons a t ih =>
    intro bs h i c hc
    simp only [mapOpt] at h
    cases hf : f a with
    | none => rw [hf] at h; exact Option.noConfusion h
    | some b =>
      rw [hf] at h
      cases hm : mapOpt f t with
      | none => rw [hm] at h; exact Option.noConfusion h
      | some bs' =>
        rw [hm] at h
        rw [← Option.some.inj h]
        cases i with
        | zero =>
          refine ⟨b, ?_, rfl⟩
          rw [← Option.some.inj hc]
          exact hf
        | succ i =>
          exact ih hm i c hc

theorem mapOpt_eq_none_of_mem {α : Type} {f : Cell → Option α} {c : Cell} :
    ∀ {l : List Cell}, c ∈ l → f c = none → mapOpt f l = none := by
  intro l
  induction l with
  | nil => intro h; simp at h
  | cons a t ih =>
    intro hmem hf
    rcases List.mem_cons.mp hmem with rfl | hmem
    · simp only [mapOpt, hf]
    · simp only [mapOpt, ih hmem hf]
      cases f a <;> rfl

theorem mapOpt_mem_some {α : Type} {f : Cell → Option α} {c : Cell}
    {l : List Cell} {bs : List α} (h : mapOpt f l = some bs) (hc : c ∈ l) :
    ∃ b, f c = some b := by
  by_contra hn
  push_neg at hn
  have : f c = none := Option.eq_none_iff_forall_not_mem.mpr
    (fun b hb => hn b hb)
  rw [mapOpt_eq_none_of_mem hc this] at h
  exact Option.noConfusion h

theorem ordCode_inv {c : Cell} {q : ℚ} (h : ordCode c = some q) :
    (c = .str "L" ∧ q = 0) ∨ (c = .str "M" ∧ q = 1) ∨ (c = .str "H" ∧ q = 2) := by
  unfold ordCode at h
  split at h
  · exact Or.inl ⟨rfl, (Option.some.inj h).symm⟩
  · exact Or.inr (Or.inl ⟨rfl, (Option.some.inj h).symm⟩)
  · exact Or.inr (Or.inr ⟨rfl, (Option.some.inj h).symm⟩)
  · exact Option.noConfusion h

/-- Claim C6: `encode_features` maps `Type` by the fixed closed table
`L ↦ 0`, `M ↦ 1`, `H ↦ 2` — on success every `Type` cell was one of the
three predefined categories and its output cell is its fixed rank — and a
`Type` value outside the set `{L, M, H}` makes the stage fail with
`EncodingError`. -/
theorem encode_features_ordinal (df : Dataset) (tcol : List Cell)
    (ht : getCol df "Type" = some tcol) :
    (ordCode (.str "L") = some 0 ∧ ordCode (.str "M") = some 1
        ∧ ordCode (.str "H") = some 2)
      ∧ ((∃ c ∈ tcol, ordCode c = none) →
          encode_features df = .error .encodingError)
      ∧ ∀ out, encode_features df = .ok out →
          (∀ c ∈ tcol, c = .str "L" ∨ c = .str "M" ∨ c = .str "H")
          ∧ ∃ tcodes, mapOpt ordCode tcol = some tcodes
            ∧ getCol out "Type" = some (tcodes.map Cell.num)
            ∧ ∀ i c, tcol.get? i = some c →
                ∃ q, ordCode c = some q
                  ∧ (tcodes.map Cell.num).get? i = some (Cell.num q) := by
  refine ⟨⟨rfl, rfl, rfl⟩, ?_, ?_⟩
  · rintro ⟨c, hc, hcode⟩
    unfold encode_features
    simp only [ht, mapOpt_eq_none_of_mem hc hcode]
  · intro out hok
    unfold encode_features at hok
    simp only [ht] at hok
    cases hm : mapOpt ordCode tcol with
    | none =>
      simp only [hm] at hok
      exact Except.noConfusion hok
    | some tcodes =>
      simp only [hm] at hok
      refine ⟨?_, tcodes, rfl, ?_, ?_⟩
      · intro c hc
        rcases mapOpt_mem_some hm hc with ⟨q, hq⟩
        rcases ordCode_inv hq with ⟨h1, _⟩ | ⟨h1, _⟩ | ⟨h1, _⟩
        · exact Or.inl h1
        · exact Or.inr (Or.inl h1)
        · exact Or.inr (Or.inr h1)
      · -- the Type column of the output
        cases hff : getCol (setCol df "Type" (tcodes.map Cell.num)) "Failure Type" with
        | none =>
          simp only [hff] at hok
          exact Except.noConfusion hok
        | some fcol =>
          simp only [hff] at hok
          cases hfs : asStrs fcol with
          | none =>
            simp only [hfs] at hok
            exact Except.noConfusion hok
          | some fstrs =>
            simp only [hfs] at hok
            rw [← Except.ok.inj hok]
            rw [getCol_setCol_other _ _ (by decide), getCol_setCol_self]
      · intro i c hc
        rcases mapOpt_get? hm i c hc with ⟨q, hq, hbi⟩
        refine ⟨q, hq, ?_⟩
        rw [List.get?_map, hbi]
        rfl


/-- Witness for claim C6 at a dataset whose `Type` column is `[L, H]`. -/
theorem encode_features_ordinal_witness :
    (ordCode (.str "L") = some 0 ∧ ordCode (.str "M") = some 1
        ∧ ordCode (.str "H") = some 2)
      ∧ ((∃ c ∈ [Cell.str "L", Cell.str "H"], ordCode c = none) →
          encode_features [("Type", [Cell.str "L", Cell.str "H"]),
            ("Failure Type", [Cell.str "No Failure", Cell.str "Heat"])]
            = .error .encodingError)
      ∧ ∀ out, encode_features [("Type", [Cell.str "L", Cell.str "H"]),
            ("Failure Type", [Cell.str "No Failure", Cell.str "Heat"])] = .ok out →
          (∀ c ∈ [Cell.str "L", Cell.str "H"],
              c = .str "L" ∨ c = .str "M" ∨ c = .str "H")
          ∧ ∃ tcodes, mapOpt ordCode [Cell.str "L", Cell.str "H"] = some tcodes
            ∧ getCol out "Type" = some (tcodes.map Cell.num)
            ∧ ∀ i c, ([Cell.str "L", Cell.str "H"] : List Cell).get? i = some c →
                ∃ q, ordCode c = some q
                  ∧ (tcodes.map Cell.num).get? i = some (Cell.num q) :=
  encode_features_ordinal
    [("Type", [Cell.str "L", Cell.str "H"]),
     ("Failure Type", [Cell.str "No Failure", Cell.str "Heat"])]
    [Cell.str "L", Cell.str "H"]
    (by decide)

/-- Claim C3 counterexample: on `Failure Type` values `[B, A]`,
`encode_features` assigns `B ↦ 1, A ↦ 0` — the rank in the
lexicographically sorted distinct values (`LabelEncoder` sorts via
`np.unique`) — while assignment in order of first appearance in row order
would give `B ↦ 0, A ↦ 1`; the two disagree. -/
theorem encode_features_not_first_appearance :
    encode_features [("Type", [Cell.str "L", Cell.str "L"]),
        ("Failure Type", [Cell.str "B", Cell.str "A"])]
      = .ok [("Type", [Cell.num 0, Cell.num 0]),
             ("Failure Type", [Cell.str "B", Cell.str "A"]),
             ("type_of_failure", [Cell.num 1, Cell.num 0])]
    ∧ (["B", "A"].map (fun s => Cell.num (firstSeenCode ["B", "A"] s)))
        = [Cell.num 0, Cell.num 1]
    ∧ ([Cell.num 1, Cell.num 0] : List Cell) ≠ [Cell.num 0, Cell.num 1] := by
  refine ⟨by decide, by decide, by decide⟩

/-- Claim C3 (amended): `encode_features` assigns each distinct string of
the `Failure Type` column the integer code equal to its rank among the
distinct observed strings in lexicographically sorted order (`LabelEncoder`
fitted on the full current dataset), not in order of first appearance; and
within one run every occurrence of the same string receives the same code. -/
theorem encode_features_label_sorted_consistent
    (df out : Dataset) (fcol : List Cell) (fstrs : List String)
    (hf : getCol df "Failure Type" = some fcol)
    (hfs : asStrs fcol = some fstrs)
    (hok : encode_features df = .ok out) :
    getCol out "type_of_failure"
        = some (fstrs.map (fun s => Cell.num (labelCode fstrs s)))
      ∧ ∀ i j s, fstrs.get? i = some s → fstrs.get? j = some s →
          (fstrs.map (fun s => Cell.num (labelCode fstrs s))).get? i
            = (fstrs.map (fun s => Cell.num (labelCode fstrs s))).get? j := by
  constructor
  · unfold encode_features at hok
    cases ht : getCol df "Type" with
    | none =>
      simp only [ht] at hok
      exact Except.noConfusion hok
    | some tcol =>
      simp only [ht] at hok
      cases hm : mapOpt ordCode tcol with
      | none =>
        simp only [hm] at hok
        exact Except.noConfusion hok
      | some tcodes =>
        simp only [hm] at hok
        have hf1 : getCol (setCol df "Type" (tcodes.map Cell.num)) "Failure Type"
            = some fcol := by
          rw [getCol_setCol_other df _ (by decide)]
          exact hf
        simp only [hf1, hfs] at hok
        rw [← Except.ok.inj hok, getCol_setCol_self]
  · intro i j s hi hj
    rw [List.get?_map, List.get?_map, hi, hj]

/-- Witness for claim C3 (amended) at `Failure Type` values `[B, A, B]`. -/
theorem encode_features_label_sorted_consistent_witness :
    getCol [("Type", [Cell.num 0, Cell.num 0, Cell.num 0]),
            ("Failure Type", [Cell.str "B", Cell.str "A", Cell.str "B"]),
            ("type_of_failure", [Cell.num 1, Cell.num 0, Cell.num 1])]
        "type_of_failure"
        = some ((["B", "A", "B"].map (fun s => Cell.num (labelCode ["B", "A", "B"] s))))
      ∧ ∀ i j s, (["B", "A", "B"] : List String).get? i = some s →
          (["B", "A", "B"] : List String).get? j = some s →
          ((["B", "A", "B"].map (fun s => Cell.num (labelCode ["B", "A", "B"] s)))).get? i
            = ((["B", "A", "B"].map (fun s => Cell.num (labelCode ["B", "A", "B"] s)))).get? j :=
  encode_features_label_sorted_consistent
    [("Type", [Cell.str "L", Cell.str "L", Cell.str "L"]),
     ("Failure Type", [Cell.str "B", Cell.str "A", Cell.str "B"])]
    [("Type", [Cell.num 0, Cell.num 0, Cell.num 0]),
     ("Failure Type", [Cell.str "B", Cell.str "A", Cell.str "B"]),
     ("type_of_failure", [Cell.num 1, Cell.num 0, Cell.num 1])]
    [Cell.str "B", Cell.str "A", Cell.str "B"]
    ["B", "A", "B"]
    (by decide) (by decide) (by decide)

/-! ### Minimum / maximum of a column -/

theorem foldl_min_le_init (l : List ℚ) (a : ℚ) : l.foldl min a ≤ a := by
  induction l generalizing a with
  | nil => exact le_refl a
  | cons b t ih => exact le_trans (ih (min a b)) (min_le_left a b)

theorem foldl_min_le_mem {x : ℚ} {l : List ℚ} (hx : x ∈ l) (a : ℚ) :
    l.foldl min a ≤ x := by
  induction l generalizing a with
  | nil => simp at hx
  | cons b t ih =>
    rcases List.mem_cons.mp hx with rfl | hx
    · exact le_trans (foldl_min_le_init t (min a x)) (min_le_right a x)
    · exact ih hx (min a b)

theorem listMin_le {x : ℚ} {xs : List ℚ} (hx : x ∈ xs) : listMin xs ≤ x := by
  cases xs with
  | nil => simp at hx
  | cons a t =>
    rcases List.mem_cons.mp hx with rfl | hx
    · exact foldl_min_le_init t x
    · exact foldl_min_le_mem hx a

theorem init_le_foldl_max (l : List ℚ) (a : ℚ) : a ≤ l.foldl max a := by
  induction l generalizing a with
  | nil => exact le_refl a
  | cons b t ih => exact le_trans (le_max_left a b) (ih (max a b))

theorem mem_le_foldl_max {x : ℚ} {l : List ℚ} (hx : x ∈ l) (a : ℚ) :
    x ≤ l.foldl max a := by
  induction l generalizing a with
  | nil => simp at hx
  | cons b t ih =>
    rcases List.mem_cons.mp hx with rfl | hx
    · exact le_trans (le_max_right a x) (init_le_foldl_max t (max a x))
    · exact ih hx (max a b)

theorem le_listMax {x : ℚ} {xs : List ℚ} (hx : x ∈ xs) : x ≤ listMax xs := by
  cases xs with
  | nil => simp at hx
  | cons a t =>
    rcases List.mem_cons.mp hx with rfl | hx
    · exact init_le_foldl_max t x
    · exact mem_le_foldl_max hx a

theorem listMin_le_listMax {xs : List ℚ} (h : xs ≠ []) :
    listMin xs ≤ listMax xs := by
  cases xs with
  | nil => exact absurd rfl h
  | cons a t =>
    exact le_trans (listMin_le (List.mem_cons_self a t)) (le_listMax (List.mem_cons_self a t))

theorem foldl_min_map_mono (f : ℚ → ℚ) (hf : Monotone f) (l : List ℚ) (a : ℚ) :
    (l.map f).foldl min (f a) = f (l.foldl min a) := by
  induction l generalizing a with
  | nil => rfl
  | cons b t ih =>
    simp only [List.map_cons, List.foldl_cons]
    rw [← Monotone.map_min hf, ih]

theorem foldl_max_map_mono (f : ℚ → ℚ) (hf : Monotone f) (l : List ℚ) (a : ℚ) :
    (l.map f).foldl max (f a) = f (l.foldl max a) := by
  induction l generalizing a with
  | nil => rfl
  | cons b t ih =>
    simp only [List.map_cons, List.foldl_cons]
    rw [← Monotone.map_max hf, ih]

theorem listMin_map_mono (f : ℚ → ℚ) (hf : Monotone f) {xs : List ℚ} (h : xs ≠ []) :
    listMin (xs.map f) = f (listMin xs) := by
  cases xs with
  | nil => exact absurd rfl h
  | cons a t =>
    simp only [List.map_cons, listMin]
    exact foldl_min_map_mono f hf t a

theorem listMax_map_mono (f : ℚ → ℚ) (hf : Monotone f) {xs : List ℚ} (h : xs ≠ []) :
    listMax (xs.map f) = f (listMax xs) := by
  cases xs with
  | nil => exact absurd rfl h
  | cons a t =>
    simp only [List.map_cons, listMax]
    exact foldl_max_map_mono f hf t a

theorem minmaxScale_spread {xs : List ℚ} (hne : xs ≠ [])
    (hd : listMin xs ≠ listMax xs) :
    minmaxScale xs = xs.map (fun x => (x - listMin xs) / (listMax xs - listMin xs))
      ∧ listMin (minmaxScale xs) = 0
      ∧ listMax (minmaxScale xs) = 1 := by
  have hlt : listMin xs < listMax xs := lt_of_le_of_ne (listMin_le_listMax hne) hd
  have hpos : 0 < listMax xs - listMin xs := sub_pos.mpr hlt
  have hs : ¬(listMax xs - listMin xs = 0) := ne_of_gt hpos
  have heq : minmaxScale xs
      = xs.map (fun x => (x - listMin xs) / (listMax xs - listMin xs)) := by
    simp only [minmaxScale, if_neg hs]
  have hmono : Monotone (fun x : ℚ => (x - listMin xs) / (listMax xs - listMin xs)) :=
    fun a b hab => (div_le_div_iff_of_pos_right hpos).mpr (sub_le_sub_right hab _)
  refine ⟨heq, ?_, ?_⟩
  · rw [heq, listMin_map_mono _ hmono hne]
    simp
  · rw [heq, listMax_map_mono _ hmono hne]
    exact div_self hs

theorem minmaxScale_const {xs : List ℚ} (hd : listMin xs = listMax xs) :
    ∀ v ∈ minmaxScale xs, v = 0 := by
  intro v hv
  unfold minmaxScale at hv
  rcases List.mem_map.mp hv with ⟨x, hx, hxe⟩
  have hxm : x = listMin xs :=
    le_antisymm (hd ▸ le_listMax hx) (listMin_le hx)
  rw [← hxe, hxm]
  simp

/-! ### The scale_features fold -/

theorem scaleStep_ok {df df1 : Dataset} {n : String}
    (h : scaleStep df n = .ok df1) :
    ∃ col xs, getCol df n = some col ∧ asNums col = some xs
      ∧ df1 = setCol df n ((minmaxScale xs).map Cell.num) := by
  unfold scaleStep at h
  cases hc : getCol df n with
  | none =>
    simp only [hc] at h
    exact Except.noConfusion h
  | some col =>
    simp only [hc] at h
    cases hx : asNums col with
    | none =>
      simp only [hx] at h
      exact Except.noConfusion h
    | some xs =>
      simp only [hx] at h
      exact ⟨col, xs, rfl, hx, (Except.ok.inj h).symm⟩

theorem scaleFold_getCol_notMem :
    ∀ (names : List String) (df out : Dataset) (name : String),
      name ∉ names → List.foldlM scaleStep df names = .ok out →
      getCol out name = getCol df name := by
  intro names
  induction names with
  | nil =>
    intro df out name _ hok
    rw [← Except.ok.inj hok]
  | cons n t ih =>
    intro df out name hmem hok
    simp only [List.foldlM_cons] at hok
    cases hs : scaleStep df n with
    | error e =>
      rw [hs] at hok
      exact Except.noConfusion hok
    | ok df1 =>
      rw [hs] at hok
      rcases scaleStep_ok hs with ⟨col, xs, _, _, rfl⟩
      have hname : name ≠ n := fun he => hmem (he ▸ List.mem_cons_self n t)
      rw [ih _ out name (fun hmt => hmem (List.mem_cons_of_mem n hmt)) hok,
        getCol_setCol_other _ _ hname]

theorem scaleFold_getCol_mem :
    ∀ (names : List String) (df out : Dataset) (name : String),
      names.Nodup → name ∈ names → List.foldlM scaleStep df names = .ok out →
      ∃ col xs, getCol df name = some col ∧ asNums col = some xs
        ∧ getCol out name = some ((minmaxScale xs).map Cell.num) := by
  intro names
  induction names with
  | nil =>
    intro df out name _ hmem
    simp at hmem
  | cons n t ih =>
    intro df out name hnd hmem hok
    simp only [List.foldlM_cons] at hok
    cases hs : scaleStep df n with
    | error e =>
      rw [hs] at hok
      exact Except.noConfusion hok
    | ok df1 =>
      rw [hs] at hok
      rcases scaleStep_ok hs with ⟨col, xs, hcol, hxs, rfl⟩
      rcases List.mem_cons.mp hmem with rfl | hmem
      · refine ⟨col, xs, hcol, hxs, ?_⟩
        have hnt : name ∉ t := (List.nodup_cons.mp hnd).1
        rw [scaleFold_getCol_notMem t _ out name hnt hok, getCol_setCol_self]
      · have hname : name ≠ n := fun he =>
          (List.nodup_cons.mp hnd).1 (he ▸ hmem)
        rcases ih _ out name (List.nodup_cons.mp hnd).2 hmem hok with
          ⟨col', xs', hcol', hxs', hout⟩
        rw [getCol_setCol_other _ _ hname] at hcol'
        exact ⟨col', xs', hcol', hxs', hout⟩

theorem except_ok_bind {α β : Type} (a : α) (f : α → Except Err β) :
    (Except.ok a >>= f) = f a := rfl

theorem except_error_bind {α β : Type} (e : Err) (f : α → Except Err β) :
    ((Except.error e : Except Err α) >>= f) = Except.error e := rfl

theorem length_of_getCol {df : Dataset} {n : ℕ} {name : String} {v : List Cell}
    (hrc : hasRowCount df n) (h : getCol df name = some v) : v.length = n := by
  induction df with
  | nil => exact Option.noConfusion h
  | cons p t ih =>
    by_cases hp : p.1 = name
    · simp only [getCol, hp, if_true] at h
      rw [← Option.some.inj h]
      exact hrc p (List.mem_cons_self p t)
    · simp only [getCol, hp, if_false] at h
      exact ih (fun q hq => hrc q (List.mem_cons_of_mem p hq)) h

theorem scaleFold_rowCount :
    ∀ (names : List String) (df out : Dataset) (n : ℕ),
      hasRowCount df n → List.foldlM scaleStep df names = .ok out →
      hasRowCount out n := by
  intro names
  induction names with
  | nil =>
    intro df out n hrc hok
    rw [← Except.ok.inj hok]
    exact hrc
  | cons nm t ih =>
    intro df out n hrc hok
    simp only [List.foldlM_cons] at hok
    cases hs : scaleStep df nm with
    | error e =>
      rw [hs] at hok
      exact Except.noConfusion hok
    | ok df1 =>
      rw [hs] at hok
      rcases scaleStep_ok hs with ⟨col, xs, hcol, hxs, rfl⟩
      refine ih _ out n (hasRowCount_setCol hrc ?_) hok
      rw [List.length_map]
      unfold minmaxScale
      rw [List.length_map]
      rw [mapOpt_length hxs]
      exact length_of_getCol hrc hcol

/-- Claim C2: for a column among the five scaled ones that is present and
numeric, `scale_features` replaces it by its min-max image: when the
column's minimum differs from its maximum every output value is
`(x - min) / (max - min)` and the output attains minimum `0` and maximum
`1`; a zero-variance column (min = max) becomes uniformly `0` with no
division by zero. -/
theorem scale_features_minmax (df out : Dataset) (name : String)
    (col : List Cell) (xs : List ℚ)
    (hname : name ∈ colsToScale)
    (hcol : getCol df name = some col)
    (hxs : asNums col = some xs)
    (hne : xs ≠ [])
    (hok : scale_features df = .ok out) :
    getCol out name = some ((minmaxScale xs).map Cell.num)
      ∧ (listMin xs ≠ listMax xs →
          minmaxScale xs = xs.map (fun x => (x - listMin xs) / (listMax xs - listMin xs))
          ∧ listMin (minmaxScale xs) = 0
          ∧ listMax (minmaxScale xs) = 1)
      ∧ (listMin xs = listMax xs → ∀ v ∈ minmaxScale xs, v = 0) := by
  have hnd : colsToScale.Nodup := by decide
  rcases scaleFold_getCol_mem colsToScale df out name hnd hname hok with
    ⟨col', xs', hcol', hxs', hout⟩
  rw [hcol] at hcol'
  rw [← Option.some.inj hcol'] at hxs'
  rw [hxs] at hxs'
  rw [← Option.some.inj hxs'] at hout
  exact ⟨hout, fun hd => minmaxScale_spread hne hd, fun hd => minmaxScale_const hd⟩

/-- Witness for claim C2 at a five-column dataset with values `[1, 3]`. -/
theorem scale_features_minmax_witness :
    getCol [("Rotational speed [rpm]", [Cell.num 0, Cell.num 1]),
            ("Torque [Nm]", [Cell.num 0, Cell.num 1]),
            ("Tool wear [min]", [Cell.num 0, Cell.num 1]),
            ("Air temperature [c]", [Cell.num 0, Cell.num 1]),
            ("Process temperature [c]", [Cell.num 0, Cell.num 1])]
        "Torque [Nm]" = some ((minmaxScale [1, 3]).map Cell.num)
      ∧ (listMin [(1 : ℚ), 3] ≠ listMax [(1 : ℚ), 3] →
          minmaxScale [1, 3]
            = [(1 : ℚ), 3].map
                (fun x => (x - listMin [(1 : ℚ), 3]) / (listMax [(1 : ℚ), 3] - listMin [(1 : ℚ), 3]))
          ∧ listMin (minmaxScale [1, 3]) = 0
          ∧ listMax (minmaxScale [1, 3]) = 1)
      ∧ (listMin [(1 : ℚ), 3] = listMax [(1 : ℚ), 3] →
          ∀ v ∈ minmaxScale [1, 3], v = 0) :=
  scale_features_minmax
    [("Rotational speed [rpm]", [Cell.num 1, Cell.num 3]),
     ("Torque [Nm]", [Cell.num 1, Cell.num 3]),
     ("Tool wear [min]", [Cell.num 1, Cell.num 3]),
     ("Air temperature [c]", [Cell.num 1, Cell.num 3]),
     ("Process temperature [c]", [Cell.num 1, Cell.num 3])]
    [("Rotational speed [rpm]", [Cell.num 0, Cell.num 1]),
     ("Torque [Nm]", [Cell.num 0, Cell.num 1]),
     ("Tool wear [min]", [Cell.num 0, Cell.num 1]),
     ("Air temperature [c]", [Cell.num 0, Cell.num 1]),
     ("Process temperature [c]", [Cell.num 0, Cell.num 1])]
    "Torque [Nm]" [Cell.num 1, Cell.num 3] [1, 3]
    (by decide) (by decide) (by decide) (by decide)
    (by simp +decide [scale_features, colsToScale, scaleStep, asNums, mapOpt, cellNum,
          setCol, hasCol, getCol, minmaxScale, listMin, listMax,
          List.foldlM_cons, List.foldlM_nil, except_ok_bind, except_error_bind]
        norm_num)

/-- Claim C10: `scale_features` only touches the five listed columns — any
column outside `colsToScale` (e.g. `Type`, `Machine failure`,
`Failure Type`, `type_of_failure`) keeps exactly its old cells, and the row
count is unchanged. -/
theorem scale_features_frame (df out : Dataset) (name : String) (n : ℕ)
    (hname : name ∉ colsToScale)
    (hrc : hasRowCount df n)
    (hok : scale_features df = .ok out) :
    getCol out name = getCol df name ∧ hasRowCount out n :=
  ⟨scaleFold_getCol_notMem colsToScale df out name hname hok,
   scaleFold_rowCount colsToScale df out n hrc hok⟩

/-- Witness for claim C10: the `Type` column survives scaling untouched. -/
theorem scale_features_frame_witness :
    getCol [("Type", [Cell.num 0, Cell.num 2]),
            ("Rotational speed [rpm]", [Cell.num 0, Cell.num 1]),
            ("Torque [Nm]", [Cell.num 0, Cell.num 1]),
            ("Tool wear [min]", [Cell.num 0, Cell.num 1]),
            ("Air temperature [c]", [Cell.num 0, Cell.num 1]),
            ("Process temperature [c]", [Cell.num 0, Cell.num 1])] "Type"
      = getCol [("Type", [Cell.num 0, Cell.num 2]),
            ("Rotational speed [rpm]", [Cell.num 1, Cell.num 3]),
            ("Torque [Nm]", [Cell.num 1, Cell.num 3]),
            ("Tool wear [min]", [Cell.num 1, Cell.num 3]),
            ("Air temperature [c]", [Cell.num 1, Cell.num 3]),
            ("Process temperature [c]", [Cell.num 1, Cell.num 3])] "Type"
      ∧ hasRowCount [("Type", [Cell.num 0, Cell.num 2]),
            ("Rotational speed [rpm]", [Cell.num 0, Cell.num 1]),
            ("Torque [Nm]", [Cell.num 0, Cell.num 1]),
            ("Tool wear [min]", [Cell.num 0, Cell.num 1]),
            ("Air temperature [c]", [Cell.num 0, Cell.num 1]),
            ("Process temperature [c]", [Cell.num 0, Cell.num 1])] 2 :=
  scale_features_frame
    [("Type", [Cell.num 0, Cell.num 2]),
     ("Rotational speed [rpm]", [Cell.num 1, Cell.num 3]),
     ("Torque [Nm]", [Cell.num 1, Cell.num 3]),
     ("Tool wear [min]", [Cell.num 1, Cell.num 3]),
     ("Air temperature [c]", [Cell.num 1, Cell.num 3]),
     ("Process temperature [c]", [Cell.num 1, Cell.num 3])]
    [("Type", [Cell.num 0, Cell.num 2]),
     ("Rotational speed [rpm]", [Cell.num 0, Cell.num 1]),
     ("Torque [Nm]", [Cell.num 0, Cell.num 1]),
     ("Tool wear [min]", [Cell.num 0, Cell.num 1]),
     ("Air temperature [c]", [Cell.num 0, Cell.num 1]),
     ("Process temperature [c]", [Cell.num 0, Cell.num 1])]
    "Type" 2
    (by decide) (by decide)
    (by simp +decide [scale_features, colsToScale, scaleStep, asNums, mapOpt, cellNum,
          setCol, hasCol, getCol, minmaxScale, listMin, listMax,
          List.foldlM_cons, List.foldlM_nil, except_ok_bind, except_error_bind]
        norm_num)

/-- Claim C8: for a dataset satisfying each stage's preconditions (the
stage succeeds), the row count is unchanged by `rename_and_drop_columns`,
`convert_temperature`, `encode_features` and `scale_features`. -/
theorem stages_preserve_row_count (df : Dataset) (n : ℕ)
    (hrc : hasRowCount df n) :
    (∀ out, rename_and_drop_columns df = .ok out → hasRowCount out n)
      ∧ (∀ out, convert_temperature df = .ok out → hasRowCount out n)
      ∧ (∀ out, encode_features df = .ok out → hasRowCount out n)
      ∧ (∀ out, scale_features df = .ok out → hasRowCount out n) := by
  refine ⟨?_, ?_, ?_, ?_⟩
  · intro out hok
    rw [dropCols_ok hok]
    exact hasRowCount_filter (hasRowCount_renameCol hrc)
  · intro out hok
    unfold convert_temperature at hok
    cases hak : getCol df "Air temperature [K]" with
    | none =>
      simp only [hak] at hok
      exact Except.noConfusion hok
    | some ak =>
      simp only [hak] at hok
      cases haks : asNums ak with
      | none =>
      simp only [haks] at hok
      exact Except.noConfusion hok
      | some aks =>
        simp only [haks] at hok
        cases hpk : getCol df "Process temperature [K]" with
        | none =>
      simp only [hpk] at hok
      exact Except.noConfusion hok
        | some pk =>
          simp only [hpk] at hok
          cases hpks : asNums pk with
          | none =>
      simp only [hpks] at hok
      exact Except.noConfusion hok
          | some pks =>
            simp only [hpks] at hok
            have h1 : hasRowCount
                (setCol df "Air temperature [c]"
                  ((aks.map (fun x => x - 273.15)).map Cell.num)) n := by
              refine hasRowCount_setCol hrc ?_
              rw [List.length_map, List.length_map, mapOpt_length haks]
              exact length_of_getCol hrc hak
            have h2 : hasRowCount
                (setCol (setCol df "Air temperature [c]"
                    ((aks.map (fun x => x - 273.15)).map Cell.num))
                  "Process temperature [c]"
                  ((pks.map (fun x => x - 273.15)).map Cell.num)) n := by
              refine hasRowCount_setCol h1 ?_
              rw [List.length_map, List.length_map, mapOpt_length hpks]
              exact length_of_getCol hrc hpk
            rw [dropCols_ok hok]
            exact hasRowCount_filter h2
  · intro out hok
    unfold encode_features at hok
    cases ht : getCol df "Type" with
    | none =>
      simp only [ht] at hok
      exact Except.noConfusion hok
    | some tcol =>
      simp only [ht] at hok
      cases hm : mapOpt ordCode tcol with
      | none =>
      simp only [hm] at hok
      exact Except.noConfusion hok
      | some tcodes =>
        simp only [hm] at hok
        have h1 : hasRowCount (setCol df "Type" (tcodes.map Cell.num)) n := by
          refine hasRowCount_setCol hrc ?_
          rw [List.length_map, mapOpt_length hm]
          exact length_of_getCol hrc ht
        cases hff : getCol (setCol df "Type" (tcodes.map Cell.num)) "Failure Type" with
        | none =>
      simp only [hff] at hok
      exact Except.noConfusion hok
        | some fcol =>
          simp only [hff] at hok
          cases hfs : asStrs fcol with
          | none =>
      simp only [hfs] at hok
      exact Except.noConfusion hok
          | some fstrs =>
            simp only [hfs] at hok
            rw [← Except.ok.inj hok]
            refine hasRowCount_setCol h1 ?_
            rw [List.length_map, mapOpt_length hfs]
            exact length_of_getCol h1 hff
  · intro out hok
    exact scaleFold_rowCount colsToScale df out n hrc hok

/-- Witness for claim C8 at a one-row raw dataset. -/
theorem stages_preserve_row_count_witness :
    (∀ out, rename_and_drop_columns
        [("UDI", [Cell.num 1]), ("Product ID", [Cell.num 2]), ("Target", [Cell.num 0])]
        = .ok out → hasRowCount out 1)
      ∧ (∀ out, convert_temperature
          [("UDI", [Cell.num 1]), ("Product ID", [Cell.num 2]), ("Target", [Cell.num 0])]
          = .ok out → hasRowCount out 1)
      ∧ (∀ out, encode_features
          [("UDI", [Cell.num 1]), ("Product ID", [Cell.num 2]), ("Target", [Cell.num 0])]
          = .ok out → hasRowCount out 1)
      ∧ (∀ out, scale_features
          [("UDI", [Cell.num 1]), ("Product ID", [Cell.num 2]), ("Target", [Cell.num 0])]
          = .ok out → hasRowCount out 1) :=
  stages_preserve_row_count
    [("UDI", [Cell.num 1]), ("Product ID", [Cell.num 2]), ("Target", [Cell.num 0])]
    1 (by decide)

/-! ### train_test_split lemmas -/

theorem getCol_mapApply (X : Dataset) (f : List Cell → List Cell) (name : String) :
    getCol (X.map (fun p => (p.1, f p.2))) name = (getCol X name).map f := by
  induction X with
  | nil => rfl
  | cons p t ih =>
    by_cases hp : p.1 = name
    · simp [getCol, hp]
    · simp [getCol, hp, ih]

theorem getCol_filterNe_self (df : Dataset) (name : String) :
    getCol (df.filter (fun p => !(p.1 = name))) name = none := by
  induction df with
  | nil => rfl
  | cons p t ih =>
    by_cases hp : p.1 = name
    · simp [List.filter_cons, hp, ih]
    · simp [getCol, List.filter_cons, hp, ih]

theorem getCol_filterNe_other (df : Dataset) {u name : String} (h : u ≠ name) :
    getCol (df.filter (fun p => !(p.1 = name))) u = getCol df u := by
  induction df with
  | nil => rfl
  | cons p t ih =>
    by_cases hp : p.1 = name
    · have hpu : ¬ p.1 = u := fun he => h (he ▸ hp)
      simp [getCol, List.filter_cons, hp, hpu, Ne.symm h, ih]
    · by_cases hpu : p.1 = u
      · simp [getCol, List.filter_cons, hp, hpu, h, ih]
      · simp [getCol, List.filter_cons, hp, hpu, ih]

theorem range_map_getD (l : List Cell) (d : Cell) :
    (List.range l.length).map (fun i => l.getD i d) = l := by
  induction l with
  | nil => rfl
  | cons c t ih =>
    rw [List.length_cons, List.range_succ_eq_map, List.map_cons, List.map_map]
    have : ((fun i => (c :: t).getD i d) ∘ Nat.succ) = fun i => t.getD i d := by
      funext i
      rfl
    rw [this, ih]
    rfl

theorem nTestOf_le (n : ℕ) : nTestOf n ≤ n := by
  unfold nTestOf
  omega

/-- Claim C4: `train_test_split` splits the frame into `X` (all columns but
`type_of_failure`) and `y` (that column), with test fraction `0.2` under
the fixed shuffle the seed 42 determines (modelled by the permutation
`rs n` of the row indices): the parts pair up in length
(`len X_train = len y_train`, `len X_test = len y_test`), train and test
sizes add up to the input size, the label column is partitioned (not
resized), `X` contains exactly the non-label columns, and the split is
reproducible — equal random sources on equal inputs give equal partitions. -/
theorem train_test_split_partition
    (rs : ℕ → List ℕ) (df Xtr Xte : Dataset) (ytr yte y : List Cell) (n : ℕ)
    (hy : getCol df "type_of_failure" = some y)
    (hrc : hasRowCount df n)
    (hperm : (rs y.length).Perm (List.range y.length))
    (hok : train_test_split rs df = .ok ((Xtr, Xte), (ytr, yte))) :
    hasRowCount Xtr (n - nTestOf n)
      ∧ hasRowCount Xte (nTestOf n)
      ∧ ytr.length = n - nTestOf n
      ∧ yte.length = nTestOf n
      ∧ (n - nTestOf n) + nTestOf n = n
      ∧ hasCol Xtr "type_of_failure" = false
      ∧ hasCol Xte "type_of_failure" = false
      ∧ (∀ name, name ≠ "type_of_failure" →
          hasCol Xtr name = hasCol df name ∧ hasCol Xte name = hasCol df name)
      ∧ (yte ++ ytr).Perm y
      ∧ ∀ rs' : ℕ → List ℕ, (∀ k, rs' k = rs k) →
          train_test_split rs' df = train_test_split rs df := by
  have hn : y.length = n := length_of_getCol hrc hy
  have hlen : (rs y.length).length = y.length :=
    hperm.length_eq.trans (List.length_range y.length)
  have htle : nTestOf y.length ≤ y.length := nTestOf_le y.length
  unfold train_test_split at hok
  simp only [hy] at hok
  have h := Except.ok.inj hok
  simp only [Prod.mk.injEq] at h
  obtain ⟨⟨hXtr, hXte⟩, hytr, hyte⟩ := h
  have htrainlen : ((rs y.length).drop (nTestOf y.length)).length
      = y.length - nTestOf y.length := by
    rw [List.length_drop, hlen]
  have htestlen : ((rs y.length).take (nTestOf y.length)).length
      = nTestOf y.length := by
    rw [List.length_take, hlen]
    exact min_eq_left htle
  refine ⟨?_, ?_, ?_, ?_, ?_, ?_, ?_, ?_, ?_, ?_⟩
  · rw [← hXtr]
    intro p hp
    rcases List.mem_map.mp hp with ⟨q, _, rfl⟩
    simp only [applyIdx, List.length_map]
    rw [htrainlen, hn]
  · rw [← hXte]
    intro p hp
    rcases List.mem_map.mp hp with ⟨q, _, rfl⟩
    simp only [applyIdx, List.length_map]
    rw [htestlen, hn]
  · rw [← hytr]
    simp only [applyIdx, List.length_map]
    rw [htrainlen, hn]
  · rw [← hyte]
    simp only [applyIdx, List.length_map]
    rw [htestlen, hn]
  · rw [← hn]
    omega
  · rw [← hXtr]
    unfold hasCol
    rw [getCol_mapApply, getCol_filterNe_self]
    rfl
  · rw [← hXte]
    unfold hasCol
    rw [getCol_mapApply, getCol_filterNe_self]
    rfl
  · intro name hne
    constructor
    · rw [← hXtr]
      unfold hasCol
      rw [getCol_mapApply, getCol_filterNe_other df hne]
      cases getCol df name <;> rfl
    · rw [← hXte]
      unfold hasCol
      rw [getCol_mapApply, getCol_filterNe_other df hne]
      cases getCol df name <;> rfl
  · rw [← hytr, ← hyte]
    unfold applyIdx
    rw [← List.map_append, List.take_append_drop]
    have := hperm.map (fun i => y.getD i (Cell.num 0))
    rw [range_map_getD y (Cell.num 0)] at this
    exact this
  · intro rs' hr
    have : rs' = rs := funext hr
    rw [this]

/-- Witness for claim C4 at a five-row dataset and the identity shuffle. -/
theorem train_test_split_partition_witness :
    hasRowCount [("f", [Cell.num 2, Cell.num 3, Cell.num 4, Cell.num 5])] (5 - nTestOf 5)
      ∧ hasRowCount [("f", [Cell.num 1])] (nTestOf 5)
      ∧ ([Cell.num 0, Cell.num 1, Cell.num 1, Cell.num 1] : List Cell).length = 5 - nTestOf 5
      ∧ ([Cell.num 0] : List Cell).length = nTestOf 5
      ∧ (5 - nTestOf 5) + nTestOf 5 = 5
      ∧ hasCol [("f", [Cell.num 2, Cell.num 3, Cell.num 4, Cell.num 5])] "type_of_failure" = false
      ∧ hasCol [("f", [Cell.num 1])] "type_of_failure" = false
      ∧ (∀ name, name ≠ "type_of_failure" →
          hasCol [("f", [Cell.num 2, Cell.num 3, Cell.num 4, Cell.num 5])] name
            = hasCol [("f", [Cell.num 1, Cell.num 2, Cell.num 3, Cell.num 4, Cell.num 5]),
                ("type_of_failure",
                 [Cell.num 0, Cell.num 0, Cell.num 1, Cell.num 1, Cell.num 1])] name
          ∧ hasCol [("f", [Cell.num 1])] name
            = hasCol [("f", [Cell.num 1, Cell.num 2, Cell.num 3, Cell.num 4, Cell.num 5]),
                ("type_of_failure",
                 [Cell.num 0, Cell.num 0, Cell.num 1, Cell.num 1, Cell.num 1])] name)
      ∧ (([Cell.num 0] ++ [Cell.num 0, Cell.num 1, Cell.num 1, Cell.num 1]) : List Cell).Perm
          [Cell.num 0, Cell.num 0, Cell.num 1, Cell.num 1, Cell.num 1]
      ∧ ∀ rs' : ℕ → List ℕ, (∀ k, rs' k = (fun m => List.range m) k) →
          train_test_split rs'
            [("f", [Cell.num 1, Cell.num 2, Cell.num 3, Cell.num 4, Cell.num 5]),
             ("type_of_failure",
              [Cell.num 0, Cell.num 0, Cell.num 1, Cell.num 1, Cell.num 1])]
          = train_test_split (fun m => List.range m)
            [("f", [Cell.num 1, Cell.num 2, Cell.num 3, Cell.num 4, Cell.num 5]),
             ("type_of_failure",
              [Cell.num 0, Cell.num 0, Cell.num 1, Cell.num 1, Cell.num 1])] :=
  train_test_split_partition (fun m => List.range m)
    [("f", [Cell.num 1, Cell.num 2, Cell.num 3, Cell.num 4, Cell.num 5]),
     ("type_of_failure", [Cell.num 0, Cell.num 0, Cell.num 1, Cell.num 1, Cell.num 1])]
    [("f", [Cell.num 2, Cell.num 3, Cell.num 4, Cell.num 5])]
    [("f", [Cell.num 1])]
    [Cell.num 0, Cell.num 1, Cell.num 1, Cell.num 1]
    [Cell.num 0]
    [Cell.num 0, Cell.num 0, Cell.num 1, Cell.num 1, Cell.num 1]
    5
    (by decide) (by decide) (List.Perm.refl _) (by decide)

/-! ### Oversampling -/

/-- Claim C9 counterexample: the code constructs
`RandomOverSampler(sampling_strategy='auto')` with no `random_state`, so the
resampling depends on the ambient pseudo-random state: two runs over the
same five-row input whose random draws differ pick different rows to
duplicate and produce different resampled outputs. -/
theorem oversample_data_not_seed_fixed :
    oversample_data (fun _ => 0)
        [("f", [Cell.num 1, Cell.num 2, Cell.num 3, Cell.num 4, Cell.num 5]),
         ("type_of_failure", [Cell.num 0, Cell.num 0, Cell.num 1, Cell.num 1, Cell.num 1])]
      ≠ oversample_data (fun _ => 1)
        [("f", [Cell.num 1, Cell.num 2, Cell.num 3, Cell.num 4, Cell.num 5]),
         ("type_of_failure", [Cell.num 0, Cell.num 0, Cell.num 1, Cell.num 1, Cell.num 1])] := by
  decide

/-- Claim C9 (amended): the resampling is a deterministic function of the
dataset together with the pseudo-random source — two runs of
`oversample_data` on equal inputs produce identical outputs exactly when
their random sources agree (the code does not pass a fixed seed, so
agreement of the sources is not guaranteed across runs). -/
theorem oversample_data_deterministic_given_source
    (rng1 rng2 : ℕ → ℕ) (df : Dataset) (h : ∀ k, rng1 k = rng2 k) :
    oversample_data rng1 df = oversample_data rng2 df := by
  have he : rng1 = rng2 := funext h
  rw [he]

/-- Witness for claim C9 (amended) with two definitionally equal sources. -/
theorem oversample_data_deterministic_given_source_witness :
    oversample_data (fun k => k + 0)
        [("f", [Cell.num 1, Cell.num 2, Cell.num 3]),
         ("type_of_failure", [Cell.num 0, Cell.num 1, Cell.num 1])]
      = oversample_data (fun k => k)
        [("f", [Cell.num 1, Cell.num 2, Cell.num 3]),
         ("type_of_failure", [Cell.num 0, Cell.num 1, Cell.num 1])] :=
  oversample_data_deterministic_given_source
    (fun k => k + 0) (fun k => k)
    [("f", [Cell.num 1, Cell.num 2, Cell.num 3]),
     ("type_of_failure", [Cell.num 0, Cell.num 1, Cell.num 1])]
    (fun k => Nat.add_zero k)

theorem mem_le_foldr_max {a : ℕ} : ∀ {l : List ℕ}, a ∈ l → a ≤ l.foldr max 0 := by
  intro l
  induction l with
  | nil => intro h; simp at h
  | cons b t ih =>
    intro h
    rcases List.mem_cons.mp h with rfl | h
    · exact le_max_left a (t.foldr max 0)
    · exact le_trans (ih h) (le_max_right b (t.foldr max 0))

theorem count_le_maxClassCount {y : List Cell} {c : Cell} (hc : c ∈ y) :
    y.count c ≤ maxClassCount y :=
  mem_le_foldr_max
    (List.mem_map_of_mem (fun c' => y.count c') (List.mem_dedup.mpr hc))

theorem mem_classIndices {y : List Cell} {c : Cell} {i : ℕ} :
    i ∈ classIndices y c ↔ i < y.length ∧ y.get? i = some c := by
  simp [classIndices, List.mem_filter, List.mem_range]

theorem classIndices_ne_nil {y : List Cell} {c : Cell} (hc : c ∈ y) :
    classIndices y c ≠ [] := by
  rcases List.mem_iff_get?.mp hc with ⟨i, hi⟩
  have hlt : i < y.length := by
    by_contra hge
    rw [List.get?_eq_none.mpr (le_of_not_lt hge)] at hi
    exact Option.noConfusion hi
  exact List.ne_nil_of_mem (mem_classIndices.mpr ⟨hlt, hi⟩)

theorem getD_of_mem_classIndices {y : List Cell} {c : Cell} {i : ℕ}
    (h : i ∈ classIndices y c) : y.getD i (Cell.num 0) = c := by
  rcases mem_classIndices.mp h with ⟨_, hg⟩
  rw [List.getD_eq_getD_get?, hg]
  rfl

theorem lt_of_mem_classIndices {y : List Cell} {c : Cell} {i : ℕ}
    (h : i ∈ classIndices y c) : i < y.length :=
  (mem_classIndices.mp h).1

theorem sampleFrom_length (rng : ℕ → ℕ) (off : ℕ) (cands : List ℕ) (m : ℕ) :
    (sampleFrom rng off cands m).length = m := by
  simp [sampleFrom]

theorem sampleFrom_mem {rng : ℕ → ℕ} {off : ℕ} {cands : List ℕ} {m : ℕ}
    (hne : cands ≠ []) : ∀ i ∈ sampleFrom rng off cands m, i ∈ cands := by
  intro i hi
  rcases List.mem_map.mp hi with ⟨j, _, rfl⟩
  have hpos : 0 < cands.length := List.length_pos.mpr hne
  have hlt : rng (off + j) % cands.length < cands.length := Nat.mod_lt _ hpos
  rw [List.getD_eq_getD_get?, List.get?_eq_get hlt]
  simp only [Option.getD_some]
  exact List.get_mem cands _ hlt

theorem sampleFrom_labels {y : List Cell} {c : Cell} (hc : c ∈ y)
    (rng : ℕ → ℕ) (off m : ℕ) :
    (sampleFrom rng off (classIndices y c) m).map (fun i => y.getD i (Cell.num 0))
      = List.replicate m c := by
  refine List.eq_replicate_iff.mpr ⟨?_, ?_⟩
  · rw [List.length_map, sampleFrom_length]
  · intro b hb
    rcases List.mem_map.mp hb with ⟨i, hi, rfl⟩
    exact getD_of_mem_classIndices (sampleFrom_mem (classIndices_ne_nil hc) i hi)

theorem count_extrasAux_notMem (rng : ℕ → ℕ) (y : List Cell) (mx : ℕ) {c : Cell} :
    ∀ (cs : List Cell) (off : ℕ), c ∉ cs → (∀ c' ∈ cs, c' ∈ y) →
      ((extrasAux rng y mx cs off).map (fun i => y.getD i (Cell.num 0))).count c = 0 := by
  intro cs
  induction cs with
  | nil => intro off _ _; rfl
  | cons c' t ih =>
    intro off hnot hmem
    have hc' : c' ∈ y := hmem c' (List.mem_cons_self c' t)
    simp only [extrasAux, List.map_append, List.count_append]
    rw [sampleFrom_labels hc' rng off (mx - y.count c'),
      ih _ (fun h => hnot (List.mem_cons_of_mem c' h))
        (fun x hx => hmem x (List.mem_cons_of_mem c' hx))]
    have hne : c ≠ c' := fun he => hnot (he ▸ List.mem_cons_self c' t)
    rw [List.count_replicate]
    simp [Ne.symm hne]

theorem count_extrasAux_mem (rng : ℕ → ℕ) (y : List Cell) (mx : ℕ) {c : Cell} :
    ∀ (cs : List Cell) (off : ℕ), cs.Nodup → (∀ c' ∈ cs, c' ∈ y) → c ∈ cs →
      ((extrasAux rng y mx cs off).map (fun i => y.getD i (Cell.num 0))).count c
        = mx - y.count c := by
  intro cs
  induction cs with
  | nil => intro off _ _ hc; simp at hc
  | cons c' t ih =>
    intro off hnd hmem hc
    have hc' : c' ∈ y := hmem c' (List.mem_cons_self c' t)
    simp only [extrasAux, List.map_append, List.count_append]
    rw [sampleFrom_labels hc' rng off (mx - y.count c')]
    rcases List.mem_cons.mp hc with heq | hct
    · subst heq
      rw [count_extrasAux_notMem rng y mx t _ (List.nodup_cons.mp hnd).1
        (fun x hx => hmem x (List.mem_cons_of_mem _ hx))]
      rw [List.count_replicate]
      simp
    · have hne : c ≠ c' := fun he => (List.nodup_cons.mp hnd).1 (he ▸ hct)
      rw [ih _ (List.nodup_cons.mp hnd).2
        (fun x hx => hmem x (List.mem_cons_of_mem c' hx)) hct]
      rw [List.count_replicate]
      simp [Ne.symm hne]

theorem count_allExtras {y : List Cell} {c : Cell} (rng : ℕ → ℕ) (hc : c ∈ y) :
    ((allExtras rng y).map (fun i => y.getD i (Cell.num 0))).count c
      = maxClassCount y - y.count c :=
  count_extrasAux_mem rng y (maxClassCount y) y.dedup 0 (List.nodup_dedup y)
    (fun c' hc' => List.mem_dedup.mp hc') (List.mem_dedup.mpr hc)

theorem extrasAux_lt (rng : ℕ → ℕ) (y : List Cell) (mx : ℕ) :
    ∀ (cs : List Cell) (off : ℕ), (∀ c' ∈ cs, c' ∈ y) →
      ∀ i ∈ extrasAux rng y mx cs off, i < y.length := by
  intro cs
  induction cs with
  | nil => intro off _ i hi; simp [extrasAux] at hi
  | cons c' t ih =>
    intro off hmem i hi
    have hc' : c' ∈ y := hmem c' (List.mem_cons_self c' t)
    simp only [extrasAux, List.mem_append] at hi
    rcases hi with hi | hi
    · exact lt_of_mem_classIndices (sampleFrom_mem (classIndices_ne_nil hc') i hi)
    · exact ih _ (fun x hx => hmem x (List.mem_cons_of_mem c' hx)) i hi

theorem allExtras_lt (rng : ℕ → ℕ) (y : List Cell) :
    ∀ i ∈ allExtras rng y, i < y.length :=
  extrasAux_lt rng y (maxClassCount y) y.dedup 0
    (fun c' hc' => List.mem_dedup.mp hc')

theorem oversample_data_ok_eq {rng : ℕ → ℕ} {df out : Dataset} {y : List Cell}
    (hy : getCol df "type_of_failure" = some y)
    (h2 : ¬ (y.dedup.length < 2))
    (hok : oversample_data rng df = .ok out) :
    out = (df.filter (fun p => !(p.1 = "type_of_failure"))).map
            (fun p => (p.1, extendCol (allExtras rng y) p.2))
          ++ [("type_of_failure", extendCol (allExtras rng y) y)] := by
  unfold oversample_data at hok
  simp only [hy] at hok
  rw [if_neg h2] at hok
  exact (Except.ok.inj hok).symm

theorem oversample_getCol_label {rng : ℕ → ℕ} {df out : Dataset} {y : List Cell}
    (hy : getCol df "type_of_failure" = some y)
    (h2 : ¬ (y.dedup.length < 2))
    (hok : oversample_data rng df = .ok out) :
    getCol out "type_of_failure" = some (extendCol (allExtras rng y) y) := by
  rw [oversample_data_ok_eq hy h2 hok, getCol_append,
    getCol_mapApply _ (extendCol (allExtras rng y)) _, getCol_filterNe_self]
  simp [getCol]

theorem oversample_getCol_other {rng : ℕ → ℕ} {df out : Dataset} {y : List Cell}
    {name : String}
    (hy : getCol df "type_of_failure" = some y)
    (h2 : ¬ (y.dedup.length < 2))
    (hne : name ≠ "type_of_failure")
    (hok : oversample_data rng df = .ok out) :
    getCol out name = (getCol df name).map (extendCol (allExtras rng y)) := by
  rw [oversample_data_ok_eq hy h2 hok, getCol_append,
    getCol_mapApply _ (extendCol (allExtras rng y)) _, getCol_filterNe_other df hne]
  cases getCol df name with
  | none => simp [getCol, Ne.symm hne]
  | some l => simp

theorem extendCol_length (E : List ℕ) (l : List Cell) :
    (extendCol E l).length = l.length + E.length := by
  simp [extendCol]

theorem get?_eq_some_getD {l : List Cell} {i : ℕ} (h : i < l.length) :
    l.get? i = some (l.getD i (Cell.num 0)) := by
  rw [List.getD_eq_getD_get?, List.get?_eq_get h]
  rfl

theorem extendCol_get?_left {E : List ℕ} {l : List Cell} {j : ℕ}
    (hj : j < l.length) : (extendCol E l).get? j = l.get? j := by
  unfold extendCol
  exact List.get?_append hj

theorem extendCol_get?_extra (E : List ℕ) (l : List Cell) (k : ℕ)
    (hk : k < E.length) :
    (extendCol E l).get? (l.length + k) = some (l.getD (E.getD k 0) (Cell.num 0)) := by
  unfold extendCol
  rw [List.get?_append_right (by omega)]
  have hc : l.length + k - l.length = k := by omega
  rw [hc, List.get?_map]
  have hEk : E.get? k = some (E.getD k 0) := by
    rw [List.getD_eq_getD_get?, List.get?_eq_get hk]
    rfl
  rw [hEk]
  rfl

/-- Claim C1: on a dataset whose label `type_of_failure` has at least two
distinct classes, `oversample_data` produces a dataset where every class of
the input label reaches exactly the maximum per-class row count of the
input, and every output row is a copy of some input row — each output cell,
in every column, equals the cell of the chosen input row, so no new feature
values are synthesized. -/
theorem oversample_data_balances
    (rng : ℕ → ℕ) (df out : Dataset) (y : List Cell) (n : ℕ)
    (hy : getCol df "type_of_failure" = some y)
    (hrc : hasRowCount df n)
    (h2 : 2 ≤ y.dedup.length)
    (hok : oversample_data rng df = .ok out) :
    hasRowCount out (n + (allExtras rng y).length)
      ∧ (∃ ycol, getCol out "type_of_failure" = some ycol
          ∧ ∀ c ∈ y.dedup, ycol.count c = maxClassCount y)
      ∧ ∀ j, j < n + (allExtras rng y).length →
          ∃ i, i < n ∧ ∀ name, cellAt out name j = cellAt df name i := by
  have hn2 : ¬ (y.dedup.length < 2) := not_lt.mpr h2
  have hn : y.length = n := length_of_getCol hrc hy
  have hElt : ∀ i ∈ allExtras rng y, i < n :=
    fun i hi => hn ▸ allExtras_lt rng y i hi
  refine ⟨?_, ?_, ?_⟩
  · rw [oversample_data_ok_eq hy hn2 hok]
    intro p hp
    rcases List.mem_append.mp hp with hp | hp
    · rcases List.mem_map.mp hp with ⟨q, hq, rfl⟩
      simp only [extendCol_length]
      rw [hrc q (List.mem_of_mem_filter hq)]
    · rcases List.mem_singleton.mp hp with rfl
      simp only [extendCol_length]
      rw [hn]
  · refine ⟨extendCol (allExtras rng y) y,
      oversample_getCol_label hy hn2 hok, ?_⟩
    intro c hc
    have hcy : c ∈ y := List.mem_dedup.mp hc
    unfold extendCol
    rw [List.count_append, count_allExtras rng hcy]
    have hle := count_le_maxClassCount hcy
    omega
  · intro j hj
    by_cases hjn : j < n
    · refine ⟨j, hjn, ?_⟩
      intro name
      by_cases hname : name = "type_of_failure"
      · subst hname
        simp only [cellAt, oversample_getCol_label hy hn2 hok, hy, Option.some_bind]
        exact extendCol_get?_left (hn ▸ hjn)
      · simp only [cellAt, oversample_getCol_other hy hn2 hname hok]
        cases hgl : getCol df name with
        | none => rfl
        | some l =>
          have hl : l.length = n := length_of_getCol hrc hgl
          simp only [Option.map_some', Option.some_bind]
          exact extendCol_get?_left (hl ▸ hjn)
    · obtain ⟨k, rfl⟩ : ∃ k, j = n + k := ⟨j - n, by omega⟩
      have hk : k < (allExtras rng y).length := by omega
      have hiE : (allExtras rng y).getD k 0 ∈ allExtras rng y := by
        have hg : (allExtras rng y).get? k = some ((allExtras rng y).getD k 0) := by
          rw [List.getD_eq_getD_get?, List.get?_eq_get hk]
          rfl
        exact List.get?_mem hg
      refine ⟨(allExtras rng y).getD k 0, hElt _ hiE, ?_⟩
      intro name
      by_cases hname : name = "type_of_failure"
      · subst hname
        simp only [cellAt, oversample_getCol_label hy hn2 hok, hy, Option.some_bind]
        have hj' : n + k = y.length + k := by rw [hn]
        rw [hj', extendCol_get?_extra _ _ _ hk]
        exact (get?_eq_some_getD (by rw [hn]; exact hElt _ hiE)).symm
      · simp only [cellAt, oversample_getCol_other hy hn2 hname hok]
        cases hgl : getCol df name with
        | none => rfl
        | some l =>
          have hl : l.length = n := length_of_getCol hrc hgl
          simp only [Option.map_some', Option.some_bind]
          have hj' : n + k = l.length + k := by rw [hl]
          rw [hj', extendCol_get?_extra _ _ _ hk]
          exact (get?_eq_some_getD (by rw [hl]; exact hElt _ hiE)).symm

/-- Witness for claim C1 at a three-row dataset with classes `{0, 1}` of
counts 2 and 1: the minority class is topped up to 2 by duplicating its row. -/
theorem oversample_data_balances_witness :
    hasRowCount
        [("f", [Cell.num 10, Cell.num 20, Cell.num 30, Cell.num 30]),
         ("type_of_failure", [Cell.num 0, Cell.num 0, Cell.num 1, Cell.num 1])]
        (3 + (allExtras (fun _ => 0) [Cell.num 0, Cell.num 0, Cell.num 1]).length)
      ∧ (∃ ycol, getCol
            [("f", [Cell.num 10, Cell.num 20, Cell.num 30, Cell.num 30]),
             ("type_of_failure", [Cell.num 0, Cell.num 0, Cell.num 1, Cell.num 1])]
            "type_of_failure" = some ycol
          ∧ ∀ c ∈ ([Cell.num 0, Cell.num 0, Cell.num 1] : List Cell).dedup,
              ycol.count c = maxClassCount [Cell.num 0, Cell.num 0, Cell.num 1])
      ∧ ∀ j, j < 3 + (allExtras (fun _ => 0) [Cell.num 0, Cell.num 0, Cell.num 1]).length →
          ∃ i, i < 3 ∧ ∀ name,
            cellAt
              [("f", [Cell.num 10, Cell.num 20, Cell.num 30, Cell.num 30]),
               ("type_of_failure", [Cell.num 0, Cell.num 0, Cell.num 1, Cell.num 1])]
              name j
            = cellAt
              [("f", [Cell.num 10, Cell.num 20, Cell.num 30]),
               ("type_of_failure", [Cell.num 0, Cell.num 0, Cell.num 1])]
              name i :=
  oversample_data_balances (fun _ => 0)
    [("f", [Cell.num 10, Cell.num 20, Cell.num 30]),
     ("type_of_failure", [Cell.num 0, Cell.num 0, Cell.num 1])]
    [("f", [Cell.num 10, Cell.num 20, Cell.num 30, Cell.num 30]),
     ("type_of_failure", [Cell.num 0, Cell.num 0, Cell.num 1, Cell.num 1])]
    [Cell.num 0, Cell.num 0, Cell.num 1] 3
    (by decide) (by decide) (by decide) (by decide)
